import Mathlib

/-!
Shallow embedding of the token-safe-zone dashboard's list-view core:
the data model (`src/types`), the query pipelines (`filteredData` of the
certificates, SSH-keys and audit-logs pages), the cache-backed loader
(`loadData`), page-based pagination (certificates), the incremental-reveal
state (audit logs), the row-expansion toggle (`toggleRow`), and the
certificate edit/persistence path (`handleSaveEdit` plus the persistence
effect). JSON (de)serialization of the browser cache is abstracted as
explicit `parse`/`serialize` function parameters; `new Date(s).getTime()`
is abstracted as a timestamp function `gt : String → Int` on the stored
date strings.
-/

/-- Lifecycle status of a certificate (`'active' | 'expired' | 'expiring'`). -/
inductive CertStatus
  | active
  | expired
  | expiring
deriving DecidableEq, Repr

/-- Record `Certificate` from `src/types`. -/
structure Certificate where
  id : String
  name : String
  domain : String
  issuer : String
  status : CertStatus
  expiryDate : String
  createdAt : String
  algorithm : String
  serialNumber : String
deriving DecidableEq, Repr

/-- Trust level of an SSH key (`'high' | 'medium' | 'low'`). -/
inductive TrustLevel
  | high
  | medium
  | low
deriving DecidableEq, Repr

/-- String form of a trust level, as stored in the TS union type. -/
def trustStr : TrustLevel → String
  | .high => "high"
  | .medium => "medium"
  | .low => "low"

/-- Record `SSHKey` from `src/types`. -/
structure SSHKey where
  id : String
  owner : String
  fingerprint : String
  lastUsed : String
  trustLevel : TrustLevel
  keyType : String
  servers : List String
deriving DecidableEq, Repr

/-- Record `AuditLog` from `src/types`; the free-form metadata mapping is
modelled as an association list. -/
structure AuditLog where
  id : String
  timestamp : String
  actor : String
  actionType : String
  targetResource : String
  metadata : List (String × String)
deriving DecidableEq, Repr

/-- JavaScript `String.prototype.trim` on the underlying character list:
drop whitespace from both ends. -/
def trimChars (l : List Char) : List Char :=
  ((l.dropWhile Char.isWhitespace).reverse.dropWhile Char.isWhitespace).reverse

/-- JavaScript `s.trim()` for strings. -/
def jsTrim (s : String) : String := ⟨trimChars s.data⟩

/-- JavaScript `String.prototype.includes` on the underlying character
lists: `hasSub q s` holds when `q` occurs as a contiguous substring of `s`. -/
def hasSub (q : List Char) : List Char → Bool
  | [] => q.isEmpty
  | c :: t => q.isPrefixOf (c :: t) || hasSub q t

/-- JavaScript `s.includes(q)` for strings. -/
def jsIncludes (s q : String) : Bool := hasSub q.data s.data

/-- Search predicate of the certificates page: case-insensitive substring
match of the query over name, domain and issuer. -/
def certMatches (c : Certificate) (q : String) : Bool :=
  jsIncludes c.name.toLower q.toLower ||
  jsIncludes c.domain.toLower q.toLower ||
  jsIncludes c.issuer.toLower q.toLower

/-- The comparator of the certificates page sort, as a boolean `le`
relation: ascending compares expiry timestamps `dateA - dateB`, descending
the reverse (`gt` models `new Date(s).getTime()`). -/
def certLE (gt : String → Int) (asc : Bool) (a b : Certificate) : Bool :=
  if asc then decide (gt a.expiryDate ≤ gt b.expiryDate)
  else decide (gt b.expiryDate ≤ gt a.expiryDate)

/-- The search/filter stage of the certificates page `filteredData` memo
(before the sort). -/
def certPreSort (certs : List Certificate) (search domFilter : String) :
    List Certificate :=
  let r1 := if search ≠ "" then certs.filter (fun c => certMatches c search)
            else certs
  if domFilter ≠ "all" then r1.filter (fun c => c.domain == domFilter) else r1

/-- The `filteredData` memo of the certificates page: search filter, then domain
filter, then stable sort by expiry timestamp in the chosen direction. -/
def certFilteredData (certs : List Certificate) (gt : String → Int)
    (search domFilter : String) (asc : Bool) : List Certificate :=
  (certPreSort certs search domFilter).mergeSort (certLE gt asc)

/-- Search predicate of the SSH-keys page: case-insensitive substring match
of the query over owner and fingerprint. -/
def sshMatches (k : SSHKey) (q : String) : Bool :=
  jsIncludes k.owner.toLower q.toLower ||
  jsIncludes k.fingerprint.toLower q.toLower

/-- Trust ranking used by the SSH-keys sort (`high` 3, `medium` 2, `low` 1). -/
def trustOrder : TrustLevel → Nat
  | .high => 3
  | .medium => 2
  | .low => 1

/-- The comparator of the SSH-keys page sort as a boolean `le` relation:
descending ranks higher trust first (`orderB - orderA`), ascending the
reverse. -/
def sshLE (desc : Bool) (a b : SSHKey) : Bool :=
  if desc then decide (trustOrder b.trustLevel ≤ trustOrder a.trustLevel)
  else decide (trustOrder a.trustLevel ≤ trustOrder b.trustLevel)

/-- The search/filter stage of the SSH-keys page `filteredData` memo. -/
def sshPreSort (keys : List SSHKey) (search trustFilter : String) :
    List SSHKey :=
  let r1 := if search ≠ "" then keys.filter (fun k => sshMatches k search)
            else keys
  if trustFilter ≠ "all" then
    r1.filter (fun k => trustStr k.trustLevel == trustFilter)
  else r1

/-- The `filteredData` memo of the SSH-keys page: search filter, then trust-level
filter, then stable sort by trust ranking in the chosen direction. -/
def sshFilteredData (keys : List SSHKey) (search trustFilter : String)
    (desc : Bool) : List SSHKey :=
  (sshPreSort keys search trustFilter).mergeSort (sshLE desc)

/-- The comparator of the audit-logs sort as a boolean `le` relation:
always descending by timestamp (`dateB - dateA`). -/
def logLE (gt : String → Int) (a b : AuditLog) : Bool :=
  decide (gt b.timestamp ≤ gt a.timestamp)

/-- The filter stage of the audit-logs page `filteredData` memo: action-type
exact match, then inclusive lower and upper timestamp bounds when a date
range is set. -/
def logsPreSort (logs : List AuditLog) (gt : String → Int)
    (actionFilter : String) (dFrom dTo : Option Int) : List AuditLog :=
  let r1 := if actionFilter ≠ "all" then
      logs.filter (fun l => l.actionType == actionFilter)
    else logs
  let r2 := match dFrom with
    | some f => r1.filter (fun l => decide (f ≤ gt l.timestamp))
    | none => r1
  match dTo with
  | some t => r2.filter (fun l => decide (gt l.timestamp ≤ t))
  | none => r2

/-- The `filteredData` memo of the audit-logs page: filters, then stable sort newest
first. -/
def logsFilteredData (logs : List AuditLog) (gt : String → Int)
    (actionFilter : String) (dFrom dTo : Option Int) : List AuditLog :=
  (logsPreSort logs gt actionFilter dFrom dTo).mergeSort (logLE gt)

/-- Outcome of one activation of the cache-backed loader: either the ready
state with the adopted collection, or the error state; each carries the
resulting persisted snapshot slot. -/
inductive LoadOutcome (α : Type)
  | ready (data : List α) (store : Option String)
  | errorState (store : Option String)
deriving DecidableEq, Repr

/-- True exactly on the ready outcome. -/
def LoadOutcome.isReady {α : Type} : LoadOutcome α → Bool
  | .ready _ _ => true
  | .errorState _ => false

/-- The `loadData` routine of each page: read the cache slot; if present, adopt the
parse result (a throwing `JSON.parse` is the `none` case, caught into the
error state); if absent, adopt the bundled dataset and persist it. -/
def loadData {α : Type} (parse : String → Option (List α))
    (serialize : List α → String) (bundled : List α)
    (store : Option String) : LoadOutcome α :=
  match store with
  | some s =>
    match parse s with
    | some data => .ready data (some s)
    | none => .errorState (some s)
  | none => .ready bundled (some (serialize bundled))

/-- Fixed page size of the audit-logs incremental reveal. -/
def PAGE_SIZE : Nat := 8

/-- State of the audit-logs incremental reveal: the running `displayCount`
and the length of the current filtered collection. -/
structure RevealState where
  displayCount : Nat
  filteredLen : Nat
deriving DecidableEq, Repr

/-- Events acting on the reveal state: the bottom sentinel becoming visible
(with the current `loading` flag), or a filter (action type / date range)
change that derives a new filtered collection. -/
inductive RevealEvent
  | observe (loading : Bool)
  | filterChange (newLen : Nat)
deriving DecidableEq, Repr

/-- One step of the reveal state: `handleObserver` grows `displayCount` by
one page size, capped at the filtered length, only when `hasMore` and not
loading; a filter change resets `displayCount` to `PAGE_SIZE`. -/
def revealStep (s : RevealState) : RevealEvent → RevealState
  | .observe loading =>
    if decide (s.displayCount < s.filteredLen) && !loading then
      { s with displayCount := min (s.displayCount + PAGE_SIZE) s.filteredLen }
    else s
  | .filterChange newLen => { displayCount := PAGE_SIZE, filteredLen := newLen }

/-- Initial reveal state for a filtered collection of length `len`. -/
def revealInit (len : Nat) : RevealState :=
  { displayCount := PAGE_SIZE, filteredLen := len }

/-- A run of the reveal state machine over a sequence of events. -/
def revealRun (s : RevealState) (evs : List RevealEvent) : RevealState :=
  evs.foldl revealStep s

/-- Number of records actually rendered: `filteredData.slice(0, displayCount)`
has length `min displayCount filteredLen`. -/
def displayedCount (s : RevealState) : Nat := min s.displayCount s.filteredLen

/-- The `totalPages` value of the certificates page: `Math.ceil(n / p)` on naturals. -/
def totalPages (n p : Nat) : Nat := (n + p - 1) / p

/-- The `paginatedData` slice of the certificates page: the slice of the filtered
collection from index `(page-1)*pageSize` to `page*pageSize` (1-based page). -/
def paginatedData {α : Type} (l : List α) (page pageSize : Nat) : List α :=
  (l.drop ((page - 1) * pageSize)).take pageSize

/-- The `handleSaveEdit` handler plus the persistence effect of the certificates page:
when the trimmed name is non-empty, replace the name of every record whose
id matches the record being edited, and re-persist the whole collection
(the effect only writes a non-empty collection); otherwise nothing happens. -/
def saveEdit (serialize : List Certificate → String)
    (certs : List Certificate) (store : Option String)
    (editingId editName : String) : List Certificate × Option String :=
  if jsTrim editName ≠ "" then
    let updated := certs.map (fun c =>
      if c.id = editingId then { c with name := jsTrim editName } else c)
    (updated, if updated.length > 0 then some (serialize updated) else store)
  else (certs, store)

/-- State of the certificates page controls relevant to pagination. -/
structure CertPageState where
  certificates : List Certificate
  search : String
  domFilter : String
  sortAsc : Bool
  currentPage : Nat
  pageSize : Nat
deriving DecidableEq, Repr

/-- Control events of the certificates page; search, domain-filter and
page-size changes run the effect that resets `currentPage` to 1. -/
inductive CertEvent
  | setSearch (q : String)
  | setFilter (f : String)
  | setPageSize (n : Nat)
  | setPage (k : Nat)
  | toggleSort
deriving Repr

/-- One step of the certificates page controls. -/
def certStep (s : CertPageState) : CertEvent → CertPageState
  | .setSearch q => { s with search := q, currentPage := 1 }
  | .setFilter f => { s with domFilter := f, currentPage := 1 }
  | .setPageSize n => { s with pageSize := n, currentPage := 1 }
  | .setPage k => { s with currentPage := k }
  | .toggleSort => { s with sortAsc := !s.sortAsc }

/-- The slice currently rendered by the certificates page: the current page
of the current filtered/sorted collection. -/
def visibleSlice (gt : String → Int) (s : CertPageState) : List Certificate :=
  paginatedData (certFilteredData s.certificates gt s.search s.domFilter s.sortAsc)
    s.currentPage s.pageSize

/-- The `toggleRow` handler of the SSH-keys and audit-logs pages: flip membership of an
identifier in the expansion set. -/
def toggleRow (prev : Finset String) (id : String) : Finset String :=
  if id ∈ prev then prev.erase id else insert id prev

/-- Certificates-page state across loads and edits, with the persisted
snapshot abstracted to the parsed collection it serializes (JSON round-trip
taken as faithful). -/
structure AppState where
  certificates : List Certificate
  snapshot : Option (List Certificate)
deriving DecidableEq, Repr

/-- Lifecycle events of the certificates page: a (re)load of the page, or a
confirmed name edit. -/
inductive AppEvent
  | reload
  | edit (editingId editName : String)
deriving Repr

/-- One lifecycle step: a reload adopts the snapshot when present (persisting
it back unchanged) and otherwise adopts the bundled data and persists it; an
edit follows `handleSaveEdit` and the guarded persistence effect. -/
def appStep (bundled : List Certificate) (s : AppState) : AppEvent → AppState
  | .reload =>
    match s.snapshot with
    | some l => { certificates := l, snapshot := some l }
    | none => { certificates := bundled, snapshot := some bundled }
  | .edit editingId editName =>
    if jsTrim editName ≠ "" then
      let updated := s.certificates.map (fun c =>
        if c.id = editingId then { c with name := jsTrim editName } else c)
      { certificates := updated,
        snapshot := if updated.length > 0 then some updated else s.snapshot }
    else s

/-- A run of the certificates-page lifecycle. -/
def appRun (bundled : List Certificate) (s : AppState)
    (evs : List AppEvent) : AppState :=
  evs.foldl (appStep bundled) s

theorem revealStep_observe_mono (s : RevealState) (b : Bool) :
    s.displayCount ≤ (revealStep s (.observe b)).displayCount := by
  simp only [revealStep]
  split
  · next h =>
    simp only [Bool.and_eq_true, decide_eq_true_eq] at h
    simp only []
    omega
  · exact Nat.le_refl _

theorem revealStep_inv (s : RevealState)
    (h : s.displayCount ≤ max PAGE_SIZE s.filteredLen) (e : RevealEvent) :
    (revealStep s e).displayCount ≤ max PAGE_SIZE (revealStep s e).filteredLen := by
  cases e with
  | observe loading =>
    simp only [revealStep]
    split
    · next h2 =>
      simp only [Bool.and_eq_true, decide_eq_true_eq] at h2
      simp only []
      omega
    · exact h
  | filterChange n =>
    simp only [revealStep]
    exact Nat.le_max_left _ _

theorem revealRun_inv (s : RevealState)
    (h : s.displayCount ≤ max PAGE_SIZE s.filteredLen) :
    ∀ evs, (revealRun s evs).displayCount
      ≤ max PAGE_SIZE (revealRun s evs).filteredLen
  | [] => h
  | e :: evs => revealRun_inv (revealStep s e) (revealStep_inv s h e) evs

/-- C3: the claimed invariant is false as stated: a filter change that leaves
fewer filtered records than one page (here 3 < 8) resets the visible count to
8, which exceeds the filtered collection size. -/
theorem claim_C3_counterexample :
    (revealRun (revealInit 20) [RevealEvent.filterChange 3]).filteredLen
      < (revealRun (revealInit 20) [RevealEvent.filterChange 3]).displayCount := by
  decide

/-- C3 (amended): across every event sequence the visible count is
monotonically non-decreasing on sentinel events, grows by one page size
capped at the filtered size, resets to the page size 8 on filter change, and
never exceeds max(8, current filtered size); the rendered slice itself never
exceeds the filtered collection size. -/
theorem claim_C3_amended (len : Nat) (evs : List RevealEvent) :
    (∀ (s : RevealState) (b : Bool),
      s.displayCount ≤ (revealStep s (.observe b)).displayCount) ∧
    (∀ (s : RevealState) (b : Bool),
      (revealStep s (.observe b)).displayCount
        = (if decide (s.displayCount < s.filteredLen) && !b then
            min (s.displayCount + PAGE_SIZE) s.filteredLen
          else s.displayCount)) ∧
    (∀ (s : RevealState) (n : Nat),
      (revealStep s (.filterChange n)).displayCount = PAGE_SIZE) ∧
    (revealRun (revealInit len) evs).displayCount
      ≤ max PAGE_SIZE (revealRun (revealInit len) evs).filteredLen ∧
    displayedCount (revealRun (revealInit len) evs)
      ≤ (revealRun (revealInit len) evs).filteredLen := by
  refine ⟨revealStep_observe_mono, ?_, fun s n => rfl, ?_, Nat.min_le_right _ _⟩
  · intro s b
    simp only [revealStep]
    split
    · next h => simp [h]
    · next h => simp [h]
  · exact revealRun_inv (revealInit len) (by simp [revealInit]) evs

/-- C2: the claim is false as stated: a persisted snapshot that is present
but unparseable does not lead to adopting the bundled dataset and the ready
state; the loader reaches the error state instead. -/
theorem claim_C2_counterexample :
    loadData (fun _ => none) (fun _ => "") ([] : List Certificate) (some "bad")
      = LoadOutcome.errorState (some "bad") ∧
    (loadData (fun _ => none) (fun _ => "") ([] : List Certificate)
      (some "bad")).isReady = false :=
  ⟨rfl, rfl⟩

/-- C2 (amended): if a persisted snapshot is present and parseable the loader
adopts it and is ready; if the snapshot is absent it adopts the bundled
dataset, persists it and is ready; if the snapshot is present but unparseable
it reaches the error state. -/
theorem claim_C2_amended {α : Type} (parse : String → Option (List α))
    (serialize : List α → String) (bundled : List α) :
    (∀ s data, parse s = some data →
      loadData parse serialize bundled (some s) = .ready data (some s)) ∧
    (∀ s, parse s = none →
      loadData parse serialize bundled (some s) = .errorState (some s)) ∧
    loadData parse serialize bundled none
      = .ready bundled (some (serialize bundled)) := by
  refine ⟨?_, ?_, rfl⟩
  · intro s data h
    simp [loadData, h]
  · intro s h
    simp [loadData, h]

theorem claim_C2_witness :
    loadData (fun s => if s = "ok" then some [42] else none) (fun _ => "ser")
      ([7] : List Nat) (some "ok") = LoadOutcome.ready [42] (some "ok") ∧
    loadData (fun s => if s = "ok" then some [42] else none) (fun _ => "ser")
      ([7] : List Nat) (some "bad") = LoadOutcome.errorState (some "bad") ∧
    loadData (fun s => if s = "ok" then some [42] else none) (fun _ => "ser")
      ([7] : List Nat) none = LoadOutcome.ready [7] (some "ser") := by
  have h := claim_C2_amended (fun s => if s = "ok" then some [42] else none)
    (fun _ => "ser") ([7] : List Nat)
  exact ⟨h.1 "ok" [42] (by decide), h.2.1 "bad" (by decide), h.2.2⟩

/-- C7: a certificate edit confirmed with a name that is empty after trimming
is a silent no-op: the in-memory collection and the persisted snapshot are
both unchanged. -/
theorem claim_C7 (serialize : List Certificate → String)
    (certs : List Certificate) (store : Option String)
    (editingId editName : String) (h : jsTrim editName = "") :
    saveEdit serialize certs store editingId editName = (certs, store) := by
  simp [saveEdit, h]

theorem claim_C7_witness :
    jsTrim "   " = "" ∧
    saveEdit (fun _ => "ser") [] none "c1" "   " = ([], none) :=
  ⟨by decide, claim_C7 (fun _ => "ser") [] none "c1" "   " (by decide)⟩

/-- C9: toggling a record identifier twice returns the expansion set to its
prior state, and a single toggle flips exactly that identifier's membership,
leaving every other identifier's membership unchanged. -/
theorem claim_C9 (s : Finset String) (id : String) :
    toggleRow (toggleRow s id) id = s ∧
    (∀ j, j ∈ toggleRow s id ↔ if j = id then id ∉ s else j ∈ s) := by
  constructor
  · by_cases h : id ∈ s
    · have e1 : toggleRow s id = s.erase id := by rw [toggleRow, if_pos h]
      have h2 : id ∉ s.erase id := by simp
      rw [e1, toggleRow, if_neg h2, Finset.insert_erase h]
    · have e1 : toggleRow s id = insert id s := by rw [toggleRow, if_neg h]
      have h2 : id ∈ insert id s := Finset.mem_insert_self id s
      rw [e1, toggleRow, if_pos h2, Finset.erase_insert h]
  · intro j
    by_cases h : id ∈ s <;> by_cases hj : j = id <;>
      simp [toggleRow, h, hj, Finset.mem_erase, Finset.mem_insert]

/-- C6: a certificate edit confirmed with a non-empty trimmed name replaces
the name of exactly the records whose identifier matches the one being
edited, by the trimmed value, in the full in-memory collection; every other
record and every other field is unchanged (positionally: the list keeps its
length and every entry is either untouched or the same record with only the
name replaced); and the entire updated collection is re-persisted to the
snapshot. -/
theorem claim_C6 (serialize : List Certificate → String)
    (certs : List Certificate) (store : Option String)
    (editingId editName : String) (hname : jsTrim editName ≠ "")
    (hne : certs ≠ []) :
    (saveEdit serialize certs store editingId editName).1.length
      = certs.length ∧
    (∀ (i : Nat) (hi : i < certs.length)
        (hi2 : i < (saveEdit serialize certs store editingId editName).1.length),
      (saveEdit serialize certs store editingId editName).1[i]
        = (if (certs[i]).id = editingId
            then { certs[i] with name := jsTrim editName } else certs[i])) ∧
    (saveEdit serialize certs store editingId editName).2
      = some (serialize (saveEdit serialize certs store editingId editName).1) := by
  have hlen : 0 < certs.length := List.length_pos.mpr hne
  simp only [saveEdit, if_pos hname]
  refine ⟨List.length_map _ _, ?_, ?_⟩
  · intro i hi hi2
    simp [List.getElem_map]
  · have : 0 < (certs.map (fun c =>
        if c.id = editingId then { c with name := jsTrim editName } else c)).length := by
      simpa using hlen
    rw [if_pos this]

/-- A sample certificate used by concrete witnesses. -/
def certA : Certificate :=
  { id := "1", name := "old", domain := "d", issuer := "i",
    status := .active, expiryDate := "e", createdAt := "c",
    algorithm := "a", serialNumber := "s" }

theorem claim_C6_witness :
    jsTrim " new " ≠ "" ∧ ([certA] : List Certificate) ≠ [] ∧
    (saveEdit (fun _ => "ser") [certA] none "1" " new ").1.length = 1 ∧
    (saveEdit (fun _ => "ser") [certA] none "1" " new ").2
      = some ((fun _ => "ser")
          (saveEdit (fun _ => "ser") [certA] none "1" " new ").1) := by
  have h := claim_C6 (fun _ => "ser") [certA] none "1" " new "
    (by decide) (by decide)
  exact ⟨by decide, by decide, h.1, h.2.2⟩

/-- C8: on the certificates page, a change of the search text, the domain
filter, or the page size resets the current page to 1, and the slice then
rendered is the first page (a prefix) of the filtered/sorted collection
derived from the new, current control state. -/
theorem claim_C8 (gt : String → Int) (s : CertPageState) :
    (∀ q, (certStep s (.setSearch q)).currentPage = 1) ∧
    (∀ f, (certStep s (.setFilter f)).currentPage = 1) ∧
    (∀ n, (certStep s (.setPageSize n)).currentPage = 1) ∧
    (∀ q, visibleSlice gt (certStep s (.setSearch q))
      = (certFilteredData s.certificates gt q s.domFilter s.sortAsc).take
          s.pageSize) ∧
    (∀ f, visibleSlice gt (certStep s (.setFilter f))
      = (certFilteredData s.certificates gt s.search f s.sortAsc).take
          s.pageSize) ∧
    (∀ n, visibleSlice gt (certStep s (.setPageSize n))
      = (certFilteredData s.certificates gt s.search s.domFilter s.sortAsc).take
          n) := by
  refine ⟨fun q => rfl, fun f => rfl, fun n => rfl, ?_, ?_, ?_⟩ <;>
    intro x <;> simp [visibleSlice, certStep, paginatedData]

/-- Invariant of the certificates-page lifecycle: the persisted snapshot, if
present, holds a non-empty collection. -/
def snapshotOK (s : AppState) : Prop :=
  s.snapshot = none ∨ ∃ l, s.snapshot = some l ∧ l ≠ []

theorem appStep_snapshotOK (bundled : List Certificate) (hb : bundled ≠ [])
    (s : AppState) (hs : snapshotOK s) (e : AppEvent) :
    snapshotOK (appStep bundled s e) := by
  cases e with
  | reload =>
    rcases hs with h | ⟨l, hl, hne⟩
    · simp only [appStep, h]
      exact Or.inr ⟨bundled, rfl, hb⟩
    · simp only [appStep, hl]
      exact Or.inr ⟨l, rfl, hne⟩
  | edit editingId editName =>
    by_cases h : jsTrim editName = ""
    · simpa [appStep, h] using hs
    · simp only [appStep, if_pos h, snapshotOK]
      split
      · next hlen =>
        refine Or.inr ⟨_, rfl, fun hnil => ?_⟩
        rw [hnil] at hlen
        simp at hlen
      · exact hs

theorem appRun_snapshotOK (bundled : List Certificate) (hb : bundled ≠ []) :
    ∀ (evs : List AppEvent) (s : AppState), snapshotOK s →
      snapshotOK (appRun bundled s evs)
  | [], _, hs => hs
  | e :: evs, s, hs =>
    appRun_snapshotOK bundled hb evs (appStep bundled s e)
      (appStep_snapshotOK bundled hb s hs e)

/-- C10: starting from a fresh client, after a first load the certificates
page never leaves an empty collection in the persisted snapshot: whatever
edits and reloads follow, a present snapshot is non-empty (the persistence
effect writes only non-empty collections and the loader persists the
non-empty bundled dataset). -/
theorem claim_C10 (bundled : List Certificate) (hb : bundled ≠ [])
    (evs : List AppEvent) (l : List Certificate)
    (h : (appRun bundled { certificates := [], snapshot := none }
        (AppEvent.reload :: evs)).snapshot = some l) :
    l ≠ [] := by
  have h0 : snapshotOK { certificates := [], snapshot := none } := Or.inl rfl
  have h1 := appRun_snapshotOK bundled hb (AppEvent.reload :: evs) _ h0
  rcases h1 with h2 | ⟨l2, hl2, hne⟩
  · rw [h] at h2
    exact absurd h2 (by simp)
  · rw [h] at hl2
    cases Option.some.inj hl2
    exact hne

theorem claim_C10_witness :
    ([certA] : List Certificate) ≠ [] ∧
    (appRun [certA] { certificates := [], snapshot := none }
      [AppEvent.reload, AppEvent.edit "1" "  "]).snapshot = some [certA] ∧
    [certA] ≠ [] :=
  ⟨by decide, by decide,
    claim_C10 [certA] (by decide) [AppEvent.edit "1" "  "] [certA] (by decide)⟩

/-- C1: the filtered result of the query pipeline contains a record iff the
record is in the collection, matches the (case-insensitive substring) search
condition over the kind-specific fields unless the search is empty, and
matches the exact filter value unless the filter is "all" — for certificates
(name/domain/issuer, domain filter) and SSH keys (owner/fingerprint,
trust-level filter). -/
theorem claim_C1 :
    (∀ (certs : List Certificate) (gt : String → Int)
        (search domFilter : String) (asc : Bool) (c : Certificate),
      c ∈ certFilteredData certs gt search domFilter asc ↔
        c ∈ certs ∧ (search = "" ∨ certMatches c search = true) ∧
          (domFilter = "all" ∨ c.domain = domFilter)) ∧
    (∀ (keys : List SSHKey) (search trustFilter : String) (desc : Bool)
        (k : SSHKey),
      k ∈ sshFilteredData keys search trustFilter desc ↔
        k ∈ keys ∧ (search = "" ∨ sshMatches k search = true) ∧
          (trustFilter = "all" ∨ trustStr k.trustLevel = trustFilter)) := by
  constructor
  · intro certs gt search domFilter asc c
    rw [certFilteredData, List.mem_mergeSort]
    simp only [certPreSort]
    by_cases hs : search = "" <;> by_cases hd : domFilter = "all" <;>
      simp [hs, hd, List.mem_filter] <;> tauto
  · intro keys search trustFilter desc k
    rw [sshFilteredData, List.mem_mergeSort]
    simp only [sshPreSort]
    by_cases hs : search = "" <;> by_cases hd : trustFilter = "all" <;>
      simp [hs, hd, List.mem_filter] <;> tauto

theorem certLE_trans (gt : String → Int) (asc : Bool) :
    ∀ a b c, certLE gt asc a b → certLE gt asc b c → certLE gt asc a c := by
  intro a b c h1 h2
  cases asc <;> simp [certLE, decide_eq_true_eq] at h1 h2 ⊢ <;> omega

theorem certLE_total (gt : String → Int) (asc : Bool) :
    ∀ a b, certLE gt asc a b || certLE gt asc b a := by
  intro a b
  cases asc <;> simp [certLE, decide_eq_true_eq] <;> omega

theorem sshLE_trans (desc : Bool) :
    ∀ a b c, sshLE desc a b → sshLE desc b c → sshLE desc a c := by
  intro a b c h1 h2
  cases desc <;> simp [sshLE, decide_eq_true_eq] at h1 h2 ⊢ <;> omega

theorem sshLE_total (desc : Bool) :
    ∀ a b, sshLE desc a b || sshLE desc b a := by
  intro a b
  cases desc <;> simp [sshLE, decide_eq_true_eq] <;> omega

theorem logLE_trans (gt : String → Int) :
    ∀ a b c, logLE gt a b → logLE gt b c → logLE gt a c := by
  intro a b c h1 h2
  simp [logLE, decide_eq_true_eq] at h1 h2 ⊢
  omega

theorem logLE_total (gt : String → Int) :
    ∀ a b, logLE gt a b || logLE gt b a := by
  intro a b
  simp [logLE, decide_eq_true_eq]
  omega

theorem chain'_mergeSort {α : Type} (le : α → α → Bool) (r : α → α → Prop)
    (trans : ∀ a b c, le a b → le b c → le a c)
    (total : ∀ a b, le a b || le b a)
    (himp : ∀ a b, le a b = true → r a b) (l : List α) :
    (l.mergeSort le).Chain' r :=
  ((List.sorted_mergeSort trans total l).imp
    (fun h => himp _ _ h)).chain'

theorem mergeSort_filter_stable {α : Type} (le : α → α → Bool) (p : α → Bool)
    (trans : ∀ a b c, le a b → le b c → le a c)
    (total : ∀ a b, le a b || le b a)
    (hp : ∀ a b, p a → p b → le a b) (l : List α) :
    (l.mergeSort le).filter p = l.filter p := by
  have h1 : (l.filter p).Pairwise (fun a b => le a b) := by
    apply List.pairwise_of_forall_mem_list
    intro a ha b hb
    exact hp a b (List.mem_filter.mp ha).2 (List.mem_filter.mp hb).2
  have h2 : List.Sublist (l.filter p) (l.mergeSort le) :=
    List.sublist_mergeSort trans total h1 (List.filter_sublist l)
  have h4 := h2.filter p
  have h5 : (l.filter p).filter p = l.filter p := by
    rw [List.filter_filter]
    simp [Bool.and_self]
  rw [h5] at h4
  have hlen : ((l.mergeSort le).filter p).length = (l.filter p).length :=
    ((List.mergeSort_perm l le).filter p).length_eq
  exact (h4.eq_of_length hlen.symm).symm

theorem certPreSort_sublist (certs : List Certificate)
    (search domFilter : String) :
    List.Sublist (certPreSort certs search domFilter) certs := by
  simp only [certPreSort]
  by_cases hs : search = "" <;> by_cases hd : domFilter = "all" <;>
    simp [hs, hd]

theorem sshPreSort_sublist (keys : List SSHKey)
    (search trustFilter : String) :
    List.Sublist (sshPreSort keys search trustFilter) keys := by
  simp only [sshPreSort]
  by_cases hs : search = "" <;> by_cases hd : trustFilter = "all" <;>
    simp [hs, hd]

theorem logsPreSort_sublist (logs : List AuditLog) (gt : String → Int)
    (actionFilter : String) (dFrom dTo : Option Int) :
    List.Sublist (logsPreSort logs gt actionFilter dFrom dTo) logs := by
  simp only [logsPreSort]
  by_cases ha : actionFilter = "all" <;> cases dFrom <;> cases dTo <;>
    simp [ha]

/-- C5: each page's sort output is ordered consistently with its designated
key and direction — certificates by expiry timestamp ascending/descending,
SSH keys by trust ranking (high>medium>low descending, or ascending after
the toggle), audit logs by timestamp descending — for every adjacent pair of
the result; and the sort is stable: the records carrying any fixed key value
appear in the result exactly in their pre-sort (collection) relative order,
the pre-sort list itself being a sublist of the input collection. -/
theorem claim_C5 :
    (∀ (certs : List Certificate) (gt : String → Int)
        (search domFilter : String),
      (certFilteredData certs gt search domFilter true).Chain'
        (fun a b => gt a.expiryDate ≤ gt b.expiryDate) ∧
      (certFilteredData certs gt search domFilter false).Chain'
        (fun a b => gt b.expiryDate ≤ gt a.expiryDate) ∧
      (∀ (asc : Bool) (t : Int),
        (certFilteredData certs gt search domFilter asc).filter
            (fun c => gt c.expiryDate == t)
          = (certPreSort certs search domFilter).filter
              (fun c => gt c.expiryDate == t)) ∧
      List.Sublist (certPreSort certs search domFilter) certs) ∧
    (∀ (keys : List SSHKey) (search trustFilter : String),
      (sshFilteredData keys search trustFilter true).Chain'
        (fun a b => trustOrder b.trustLevel ≤ trustOrder a.trustLevel) ∧
      (sshFilteredData keys search trustFilter false).Chain'
        (fun a b => trustOrder a.trustLevel ≤ trustOrder b.trustLevel) ∧
      (∀ (desc : Bool) (t : Nat),
        (sshFilteredData keys search trustFilter desc).filter
            (fun k => trustOrder k.trustLevel == t)
          = (sshPreSort keys search trustFilter).filter
              (fun k => trustOrder k.trustLevel == t)) ∧
      List.Sublist (sshPreSort keys search trustFilter) keys) ∧
    (∀ (logs : List AuditLog) (gt : String → Int) (actionFilter : String)
        (dFrom dTo : Option Int),
      (logsFilteredData logs gt actionFilter dFrom dTo).Chain'
        (fun a b => gt b.timestamp ≤ gt a.timestamp) ∧
      (∀ t : Int,
        (logsFilteredData logs gt actionFilter dFrom dTo).filter
            (fun l => gt l.timestamp == t)
          = (logsPreSort logs gt actionFilter dFrom dTo).filter
              (fun l => gt l.timestamp == t)) ∧
      List.Sublist (logsPreSort logs gt actionFilter dFrom dTo) logs) := by
  refine ⟨?_, ?_, ?_⟩
  · intro certs gt search domFilter
    refine ⟨?_, ?_, ?_, certPreSort_sublist certs search domFilter⟩
    · exact chain'_mergeSort (certLE gt true) _ (certLE_trans gt true)
        (certLE_total gt true)
        (fun a b h => by simpa [certLE, decide_eq_true_eq] using h) _
    · exact chain'_mergeSort (certLE gt false) _ (certLE_trans gt false)
        (certLE_total gt false)
        (fun a b h => by simpa [certLE, decide_eq_true_eq] using h) _
    · intro asc t
      apply mergeSort_filter_stable (certLE gt asc) _ (certLE_trans gt asc)
        (certLE_total gt asc)
      intro a b ha hb
      simp only [beq_iff_eq] at ha hb
      cases asc <;> simp [certLE, ha, hb]
  · intro keys search trustFilter
    refine ⟨?_, ?_, ?_, sshPreSort_sublist keys search trustFilter⟩
    · exact chain'_mergeSort (sshLE true) _ (sshLE_trans true) (sshLE_total true)
        (fun a b h => by simpa [sshLE, decide_eq_true_eq] using h) _
    · exact chain'_mergeSort (sshLE false) _ (sshLE_trans false) (sshLE_total false)
        (fun a b h => by simpa [sshLE, decide_eq_true_eq] using h) _
    · intro desc t
      apply mergeSort_filter_stable (sshLE desc) _ (sshLE_trans desc)
        (sshLE_total desc)
      intro a b ha hb
      simp only [beq_iff_eq] at ha hb
      cases desc <;> simp [sshLE, ha, hb]
  · intro logs gt actionFilter dFrom dTo
    refine ⟨?_, ?_, logsPreSort_sublist logs gt actionFilter dFrom dTo⟩
    · exact chain'_mergeSort (logLE gt) _ (logLE_trans gt) (logLE_total gt)
        (fun a b h => by simpa [logLE, decide_eq_true_eq] using h) _
    · intro t
      apply mergeSort_filter_stable (logLE gt) _ (logLE_trans gt) (logLE_total gt)
      intro a b ha hb
      simp only [beq_iff_eq] at ha hb
      simp [logLE, ha, hb]

theorem totalPages_bounds (n p : Nat) (hp : 0 < p) (hn : 0 < n) :
    n ≤ totalPages n p * p ∧ (totalPages n p - 1) * p < n := by
  have h := Nat.div_add_mod (n + p - 1) p
  have h2 : (n + p - 1) % p < p := Nat.mod_lt _ hp
  have e1 : (totalPages n p - 1) * p = totalPages n p * p - p := by
    rw [Nat.sub_mul, Nat.one_mul]
  have e2 : totalPages n p * p = p * ((n + p - 1) / p) := Nat.mul_comm _ _
  rw [e1, e2]
  generalize p * ((n + p - 1) / p) = X at h ⊢
  generalize (n + p - 1) % p = r at h h2
  omega

theorem totalPages_pos (n p : Nat) (hp : 0 < p) (hn : 0 < n) :
    0 < totalPages n p := by
  rcases totalPages_bounds n p hp hn with ⟨h1, _⟩
  by_contra hc
  have : totalPages n p = 0 := by omega
  rw [this] at h1
  simp at h1
  omega

theorem lastPage_length {α : Type} (l : List α) (p : Nat) (hp : 0 < p)
    (hn : 0 < l.length) :
    (paginatedData l (totalPages l.length p) p).length
      = if l.length % p = 0 then p else l.length % p := by
  obtain ⟨h1, h2⟩ := totalPages_bounds l.length p hp hn
  have hT1 : 0 < totalPages l.length p := totalPages_pos l.length p hp hn
  have hlen : (paginatedData l (totalPages l.length p) p).length
      = min p (l.length - (totalPages l.length p - 1) * p) := by
    simp [paginatedData, List.length_take, List.length_drop]
  have hTp : totalPages l.length p * p = (totalPages l.length p - 1) * p + p := by
    have e : totalPages l.length p = (totalPages l.length p - 1) + 1 := by omega
    calc totalPages l.length p * p = ((totalPages l.length p - 1) + 1) * p := by
          rw [← e]
      _ = (totalPages l.length p - 1) * p + p := by rw [Nat.succ_mul]
  set M := (totalPages l.length p - 1) * p with hM
  have hs1 : 0 < l.length - M := by omega
  have hs2 : l.length - M ≤ p := by omega
  have hmin : min p (l.length - M) = l.length - M := by omega
  have hmod : l.length % p = (l.length - M) % p := by
    have hNs : l.length = p * (totalPages l.length p - 1) + (l.length - M) := by
      rw [Nat.mul_comm]
      omega
    conv_lhs => rw [hNs]
    rw [Nat.mul_add_mod]
  rw [hlen, hmin]
  rcases Nat.lt_or_ge (l.length - M) p with hlt | hge
  · have he : l.length % p = l.length - M := by
      rw [hmod]
      exact Nat.mod_eq_of_lt hlt
    rw [he, if_neg (by omega)]
  · have hseq : l.length - M = p := by omega
    have he : l.length % p = 0 := by rw [hmod, hseq, Nat.mod_self]
    rw [he, if_pos rfl, hseq]

theorem join_pages {α : Type} (p : Nat) :
    ∀ (k : Nat) (l : List α), l.length ≤ k * p →
      ((List.range k).map (fun i => (l.drop (i * p)).take p)).flatten = l := by
  intro k
  induction k with
  | zero =>
    intro l h
    simp only [Nat.zero_mul, Nat.le_zero] at h
    simp [List.length_eq_zero.mp h]
  | succ k ih =>
    intro l h
    rw [List.range_succ_eq_map]
    simp only [List.map_cons, List.map_map, List.flatten_cons, Nat.zero_mul,
      List.drop_zero]
    have hfun : ∀ i ∈ List.range k,
        ((fun i => (l.drop (i * p)).take p) ∘ Nat.succ) i
          = (fun i => (((l.drop p).drop (i * p)).take p)) i := by
      intro i _
      simp only [Function.comp_apply, List.drop_drop]
      have : i * p + p = Nat.succ i * p := by rw [Nat.succ_mul]
      rw [Nat.add_comm p (i * p), this]
    rw [List.map_congr_left hfun, ih (l.drop p) ?_, List.take_append_drop]
    have hsm : (k + 1) * p = k * p + p := Nat.succ_mul k p
    simp only [List.length_drop]
    omega

/-- C4: for a filtered collection of size N > 0 and page size P > 0, the
derived `totalPages` is exactly ceil(N/P) — characterized by
N ≤ totalPages*P and (totalPages-1)*P < N — the last page holds N mod P
records (or P when P divides N), and the 1-based pages
`paginatedData l k P` for k = 1..totalPages concatenate back to the whole
collection, so page k is precisely the contiguous slice from (k-1)*P to
k*P. -/
theorem claim_C4 {α : Type} (l : List α) (p : Nat) (hp : 0 < p)
    (hn : 0 < l.length) :
    l.length ≤ totalPages l.length p * p ∧
    (totalPages l.length p - 1) * p < l.length ∧
    (paginatedData l (totalPages l.length p) p).length
      = (if l.length % p = 0 then p else l.length % p) ∧
    ((List.range (totalPages l.length p)).map
        (fun i => paginatedData l (i + 1) p)).flatten = l := by
  obtain ⟨h1, h2⟩ := totalPages_bounds l.length p hp hn
  refine ⟨h1, h2, lastPage_length l p hp hn, ?_⟩
  have hfun : ∀ i ∈ List.range (totalPages l.length p),
      (fun i => paginatedData l (i + 1) p) i
        = (fun i => (l.drop (i * p)).take p) i := by
    intro i _
    simp [paginatedData]
  rw [List.map_congr_left hfun]
  exact join_pages p (totalPages l.length p) l h1

theorem claim_C4_witness :
    (0 < 5 ∧ 0 < (List.range 12).length ∧
      ((List.range 12).length ≤ totalPages (List.range 12).length 5 * 5 ∧
       (totalPages (List.range 12).length 5 - 1) * 5 < (List.range 12).length ∧
       (paginatedData (List.range 12)
           (totalPages (List.range 12).length 5) 5).length
         = (if (List.range 12).length % 5 = 0 then 5
            else (List.range 12).length % 5) ∧
       ((List.range (totalPages (List.range 12).length 5)).map
           (fun i => paginatedData (List.range 12) (i + 1) 5)).flatten
         = List.range 12)) ∧
    totalPages 12 5 = 3 ∧
    paginatedData (List.range 12) 1 5 = [0, 1, 2, 3, 4] ∧
    paginatedData (List.range 12) 3 5 = [10, 11] := by
  refine ⟨⟨by decide, by decide,
    claim_C4 (List.range 12) 5 (by decide) (by decide)⟩,
    by decide, by decide, by decide⟩
